import Mathlib

/-!
Shallow embedding of the truffle-compile artifact pipeline
(`src/packages/truffle-compile/run.js`, `src/packages/truffle-compile/legacy/shims.js`,
and the unnamed shim module `src/unnamed/part_000`) together with theorems
settling the frozen claims about it.

Strings that undergo character-level surgery are modelled as `List Char`
(JavaScript strings are character sequences); JS objects used as string-keyed
maps are modelled as association lists with `Object.assign` merge semantics;
JS code that can throw is modelled in `Except`.
-/

namespace Truffle

/-- `Object.assign({}, a, b)` on string-keyed objects, as association lists:
keys of `a` keep their position (values updated from `b` when present),
keys of `b` not in `a` are appended in order. -/
def jsAssign {α : Type} (a b : List (String × α)) : List (String × α) :=
  a.map (fun kv =>
    match b.find? (fun kv2 => kv2.1 == kv.1) with
    | some kv2 => (kv.1, kv2.2)
    | none => kv)
  ++ b.filter (fun kv2 => !(a.any (fun kv => kv.1 == kv2.1)))

/-- JS property read `m[k]` on an object modelled as an association list. -/
def jsLookup {α : Type} (m : List (String × α)) (k : String) : Option α :=
  (m.find? (fun kv => kv.1 == k)).map (fun kv => kv.2)

/-- The per-character step of `sourcePath.replace(/\\/g, "/")` in
`getPortableSourcePath` (run.js:128). -/
def slashify (c : Char) : Char :=
  if c = '\\' then '/' else c

/-- `replacement.replace(":", "")` (run.js:133): JS `String.replace` with a
string pattern removes only the first occurrence. -/
def removeFirstColon : List Char → List Char
  | [] => []
  | c :: t => if c = ':' then t else c :: removeFirstColon t

/-- `getPortableSourcePath` (run.js:126-137): turn all backslashes into
forward slashes; if the result has `:` at index 1, prepend `/` and delete the
first `:`. -/
def getPortableSourcePath (sourcePath : List Char) : List Char :=
  let replacement := sourcePath.map slashify
  match replacement with
  | a :: b :: rest =>
      if b = ':' then removeFirstColon ('/' :: a :: b :: rest)
      else a :: b :: rest
  | short => short

/-- `defaultSelectors` (run.js:160-172). -/
def defaultSelectors : List (String × List String) :=
  [("", ["legacyAST", "ast"]),
   ("*", ["abi", "metadata", "evm.bytecode.object", "evm.bytecode.sourceMap",
          "evm.deployedBytecode.object", "evm.deployedBytecode.sourceMap",
          "userdoc", "devdoc"])]

/-- `prepareOutputSelection` (run.js:178-188): with no targets, a single `"*"`
entry; otherwise one entry per target, merged with `Object.assign`. -/
def prepareOutputSelection (targets : List String) :
    List (String × List (String × List String)) :=
  if targets.length = 0 then
    [("*", defaultSelectors)]
  else
    (targets.map (fun target => [(target, defaultSelectors)])).foldl jsAssign []

/-- A compiler diagnostic as consumed by `detectErrors` (run.js:214-252). -/
structure Diagnostic where
  severity : String
  formattedMessage : String
deriving DecidableEq

/-- JS `Array.prototype.join()` with the default `","` separator. -/
def joinMessages (msgs : List String) : String :=
  String.intercalate "," msgs

/-- Substring containment on character lists: does `needle` occur as a
contiguous run inside the second list? -/
def containsSubChars (needle : List Char) : List Char → Bool
  | [] => needle.isPrefixOf []
  | c :: t => needle.isPrefixOf (c :: t) || containsSubChars needle t

/-- JS `hay.includes(needle)`: substring containment. -/
def containsSub (needle hay : String) : Bool :=
  containsSubChars needle.toList hay.toList

/-- The literal part of the regex `/pragma solidity[^;]*/gm` (run.js:231). -/
def pragmaLit : List Char :=
  "pragma solidity".toList

/-- First match of `/pragma solidity[^;]*/` in a string: the literal
`pragma solidity` at its first occurrence, extended greedily over characters
other than `;` (a negated class also matches newlines). `none` when the
literal does not occur, corresponding to `String.match` returning `null`. -/
def pragmaMatch : List Char → Option (List Char)
  | [] => none
  | c :: t =>
      if pragmaLit.isPrefixOf (c :: t) then
        some (pragmaLit ++ ((c :: t).drop pragmaLit.length).takeWhile (fun ch => ch ≠ ';'))
      else pragmaMatch t

/-- `OS.EOL`, modelled as a newline. -/
def eol : String := "\n"

/-- The remediation note appended on the version-mismatch branch
(run.js:235-248). -/
def versionHint (configSolcVer contractSolcVer : String) : String :=
  String.join
    [eol,
     "Error: Truffle is currently using solc " ++ configSolcVer ++ ", ",
     "but one or more of your contracts specify \"" ++ contractSolcVer ++ "\".",
     eol,
     "Please update your truffle config or pragma statement(s).",
     eol,
     "(See https://truffleframework.com/docs/truffle/reference/configuration#compiler-configuration ",
     "for information on",
     eol,
     "configuring Truffle to use a specific solc compiler version.)"]

/-- The JS exceptions `detectErrors` can raise: indexing `[0]` on a `null`
match result (TypeError), and reading the undeclared identifier `solc`
(ReferenceError) — `solc` is local to `invokeCompiler`, not in scope in
`detectErrors`. -/
inductive JsError
  | typeError
  | referenceError
deriving DecidableEq

/-- The `{ warnings, errors }` pair returned by `detectErrors`. -/
structure DetectOut where
  warnings : String
  errors : String
deriving DecidableEq

/-- `rawErrors` (run.js:216-218). -/
def rawErrorsOf (outputErrors : List Diagnostic) (strict : Bool) : List Diagnostic :=
  if strict then outputErrors
  else outputErrors.filter (fun d => !(d.severity == "warning"))

/-- `rawWarnings` (run.js:220-222). -/
def rawWarningsOf (outputErrors : List Diagnostic) (strict : Bool) : List Diagnostic :=
  if strict then []
  else outputErrors.filter (fun d => d.severity == "warning")

/-- The joined error messages (run.js:225). -/
def joinedErrors (outputErrors : List Diagnostic) (strict : Bool) : String :=
  joinMessages ((rawErrorsOf outputErrors strict).map Diagnostic.formattedMessage)

/-- The joined warning messages (run.js:226-228). -/
def joinedWarnings (outputErrors : List Diagnostic) (strict : Bool) : String :=
  joinMessages ((rawWarningsOf outputErrors strict).map Diagnostic.formattedMessage)

/-- `detectErrors` (run.js:214-252). `outputErrors?` models the possibly
absent `compilerOutput.errors` (defaulted to `[]`), `solcConfigVersion`
models `options.compilers.solc.version` with `none` for a falsy value. On
the version-mismatch branch the code first indexes the regex match result
(TypeError when `null`) and then, when the configured version is falsy,
evaluates the undeclared identifier `solc` (ReferenceError). -/
def detectErrors (outputErrors? : Option (List Diagnostic)) (strict : Bool)
    (solcConfigVersion : Option String) : Except JsError DetectOut :=
  let outputErrors := outputErrors?.getD []
  let errors := joinedErrors outputErrors strict
  let warnings := joinedWarnings outputErrors strict
  if containsSub "requires different compiler version" errors then
    match pragmaMatch errors.toList with
    | none => Except.error JsError.typeError
    | some contractSolcVer =>
        match solcConfigVersion with
        | none => Except.error JsError.referenceError
        | some configSolcVer =>
            Except.ok ⟨warnings, errors ++ versionHint configSolcVer (String.mk contractSolcVer)⟩
  else
    Except.ok ⟨warnings, errors⟩

/-- The ways the diagnostic-handling segment of `run` can fail: an exception
escaping `detectErrors`, or the `CompileError` thrown at run.js:51. -/
inductive RunError
  | jsError : JsError → RunError
  | compileError : String → RunError
deriving DecidableEq

/-- The diagnostic gate of `run` (run.js:38-52): call `detectErrors`; when
the error string is non-empty throw `CompileError(errors)`; otherwise
proceed, surfacing the warnings string. -/
def runGate (outputErrors? : Option (List Diagnostic)) (strict : Bool)
    (solcConfigVersion : Option String) : Except RunError String :=
  match detectErrors outputErrors? strict solcConfigVersion with
  | Except.error e => Except.error (RunError.jsError e)
  | Except.ok out =>
      if out.errors.length > 0 then Except.error (RunError.compileError out.errors)
      else Except.ok out.warnings

/-- A child node of a contract definition, as read by `orderABI`. -/
structure InnerNode where
  nodeType : String
  name : String
deriving DecidableEq

/-- A top-level AST node, as read by `orderABI`; `nodes` is `none` when the
JS node lacks a (truthy) `nodes` property. -/
structure TopNode where
  nodeType : String
  name : String
  nodes : Option (List InnerNode)
deriving DecidableEq

/-- The AST object handed to `orderABI`. -/
structure Ast where
  nodes : List TopNode
deriving DecidableEq

/-- An ABI entry; only `type` and `name` are inspected by the pipeline, and
`name` is `none` when the JS entry has no `name` property. -/
structure AbiEntry where
  type : String
  name : Option String
deriving DecidableEq

/-- `ast.nodes.filter(...)[0]` (run.js:356-359). -/
def findContractDefinition (ast : Ast) (contractName : String) : Option TopNode :=
  (ast.nodes.filter
    (fun n => n.nodeType == "ContractDefinition" && n.name == contractName)).head?

/-- `orderedFunctionNames` (run.js:366-368). -/
def functionNamesOf (children : List InnerNode) : List String :=
  (children.filter (fun n => n.nodeType == "FunctionDefinition")).map InnerNode.name

/-- `functionIndexes` (run.js:371-373): singleton objects merged with
`Object.assign`, so a duplicate name keeps its first position with the last
index. -/
def buildFunctionIndexes (names : List String) : List (String × Nat) :=
  (names.enum.map (fun p => [(p.2, p.1)])).foldl jsAssign []

/-- The member names every plain JS object inherits from `Object.prototype`,
on which a bare property read returns a defined value (a function, or for
`__proto__` an object) even though the map holds no such entry. -/
def objectProtoNames : List String :=
  ["constructor", "hasOwnProperty", "isPrototypeOf", "propertyIsEnumerable",
   "toLocaleString", "toString", "valueOf", "__defineGetter__", "__defineSetter__",
   "__lookupGetter__", "__lookupSetter__", "__proto__"]

/-- A defined value read from `functionIndexes[name]`: an own numeric
declaration index, or an inherited `Object.prototype` member (whose numeric
coercion in the sort comparator is NaN). `Option`'s `none` models
`undefined`. -/
inductive JsIndexValue
  | num : Nat → JsIndexValue
  | protoMember : JsIndexValue
deriving DecidableEq

/-- The JS property read `functionIndexes[name]` on the plain object built
at run.js:371-373. The key is the entry's `name` coerced to a property key
(an absent name reads as the key `"undefined"`). `"__proto__"` always hits
the inherited accessor: `Object.assign` writes through `[[Set]]`, so even a
function named `__proto__` never becomes an own property. Other own
properties shadow the prototype; failing both, the `Object.prototype`
member names still read defined values. -/
def functionIndexRead (fidx : List (String × Nat)) (name? : Option String) :
    Option JsIndexValue :=
  if name?.getD "undefined" == "__proto__" then some JsIndexValue.protoMember
  else
    match jsLookup fidx (name?.getD "undefined") with
    | some i => some (JsIndexValue.num i)
    | none =>
        if objectProtoNames.contains (name?.getD "undefined") then
          some JsIndexValue.protoMember
        else none

/-- The claim's membership test, following the spec's words: presence of the
entry's property key in the name→index map itself. The source's actual
read, `functionIndexRead`, additionally finds inherited `Object.prototype`
members. -/
def ownFunctionIndex (fidx : List (String × Nat)) (name? : Option String) : Option Nat :=
  jsLookup fidx (name?.getD "undefined")

/-- The declaration-index sort key of the spec's description, used to state
ascending order for entries whose key is present in the map itself. -/
def abiSortKey (fidx : List (String × Nat)) (e : AbiEntry) : Nat :=
  (ownFunctionIndex fidx e.name).getD 0

/-- The comparator `functionIndexes[a] - functionIndexes[b]`
(run.js:382-384). When either side is an inherited `Object.prototype`
member, the subtraction is NaN, which `Array.prototype.sort` treats as
`+0`. -/
def abiCompare (fidx : List (String × Nat)) (a b : AbiEntry) : Int :=
  match functionIndexRead fidx a.name, functionIndexRead fidx b.name with
  | some (JsIndexValue.num i), some (JsIndexValue.num j) => (i : Int) - (j : Int)
  | _, _ => 0

/-- `orderABI` (run.js:353-386). Bucketing uses the bare property read
`functionIndexes[name] === undefined` — inherited `Object.prototype`
members count as defined. The matching bucket is sorted by the comparator
with a stable sort, as JS `Array.prototype.sort` is. -/
def orderABI (abi : List AbiEntry) (contractName : String) (ast : Ast) : List AbiEntry :=
  match findContractDefinition ast contractName with
  | none => abi
  | some contractDefinition =>
      match contractDefinition.nodes with
      | none => abi
      | some children =>
          let functionIndexes := buildFunctionIndexes (functionNamesOf children)
          (abi.filter (fun e => (functionIndexRead functionIndexes e.name).isNone)) ++
          ((abi.filter (fun e => (functionIndexRead functionIndexes e.name).isSome)).insertionSort
            (fun a b => abiCompare functionIndexes a b ≤ 0))

/-- `linkId` construction (run.js:409-413): `"__" + libraryName`, extended
with trailing `_` while shorter than 40 characters. No truncation occurs. -/
def mkLinkId (libraryName : String) : List Char :=
  let base := '_' :: '_' :: libraryName.toList
  base ++ List.replicate (40 - base.length) '_'

/-- `replaceLinkReferences` (run.js:408-424): for each reference start
(a byte offset), splice `linkId` at character offset `start*2`, using JS
`substring` semantics (`take`/`drop`, which clamp out-of-range indices). -/
def replaceLinkReferences (bytecode : List Char) (linkReferences : List Nat)
    (libraryName : String) : List Char :=
  linkReferences.foldl
    (fun bc refStart =>
      bc.take (refStart * 2) ++ mkLinkId libraryName ++ bc.drop (refStart * 2 + 40))
    bytecode

/-- The flattening at run.js:390-397: `Object.values` of the outer map, each
file's entries listed, concatenated with `reduce`. -/
def flattenLinkRefs (linkReferences : List (String × List (String × List Nat))) :
    List (String × List Nat) :=
  (linkReferences.map (fun fileLinks => fileLinks.2)).foldl (fun a b => a ++ b) []

/-- `replaceAllLinkReferences` (run.js:388-406). A `none` argument models an
absent (`undefined`) `linkReferences`, on which `Object.values` throws a
TypeError. -/
def replaceAllLinkReferences (bytecode : List Char)
    (linkReferences? : Option (List (String × List (String × List Nat)))) :
    Except JsError (List Char) :=
  match linkReferences? with
  | none => Except.error JsError.typeError
  | some linkReferences =>
      let libraryLinkReferences := flattenLinkRefs linkReferences
      let unprefixed := libraryLinkReferences.foldl
        (fun bc p => replaceLinkReferences bc p.2 p.1) bytecode
      Except.ok ('0' :: 'x' :: unprefixed)

/-- The current-shape artifact consumed by the legacy shim module
(`src/unnamed/part_000`; `shimOutput`/`shimContract` are identical in
`src/packages/truffle-compile/legacy/shims.js`). Fields not inspected by the
shim are carried opaquely as strings. -/
structure Contract where
  contractName : String
  sourcePath : String
  source : String
  sourceMap : String
  deployedSourceMap : String
  legacyAST : String
  ast : String
  abi : String
  metadata : String
  bytecode : String
  deployedBytecode : String
  compiler : String
  devdoc : String
  userdoc : String
deriving DecidableEq

/-- The legacy artifact shape produced by `shimContract`. -/
structure LegacyContract where
  contract_name : String
  sourcePath : String
  source : String
  sourceMap : String
  deployedSourceMap : String
  legacyAST : String
  ast : String
  abi : String
  metadata : String
  bytecode : String
  deployedBytecode : String
  unlinked_binary : String
  compiler : String
  devdoc : String
  userdoc : String
deriving DecidableEq

/-- `shimBytecode` (src/unnamed/part_000:51-53): the variant for bytecode
that is already a resolved hex string — the identity transform. -/
def shimBytecode (bytecode : String) : String :=
  bytecode

/-- `shimContract` (src/unnamed/part_000:14-49, identical in
legacy/shims.js): rename `contractName` to `contract_name` and duplicate the
shimmed bytecode into `unlinked_binary`. The body reads `this.shimBytecode`,
so its behaviour depends on the receiver the call supplies:
`shimBytecodeOfThis` is `some shimBytecode` when invoked as a method of the
module, and `none` when invoked receiver-less (then `this` is the global
object, `this.shimBytecode` is `undefined`, and calling it throws a
TypeError). -/
def shimContract (shimBytecodeOfThis : Option (String → String))
    (contract : Contract) : Except JsError LegacyContract :=
  match shimBytecodeOfThis with
  | none => Except.error JsError.typeError
  | some sb =>
      Except.ok
        { contract_name := contract.contractName,
          sourcePath := contract.sourcePath,
          source := contract.source,
          sourceMap := contract.sourceMap,
          deployedSourceMap := contract.deployedSourceMap,
          legacyAST := contract.legacyAST,
          ast := contract.ast,
          abi := contract.abi,
          metadata := contract.metadata,
          bytecode := sb contract.bytecode,
          deployedBytecode := sb contract.deployedBytecode,
          unlinked_binary := sb contract.bytecode,
          compiler := contract.compiler,
          devdoc := contract.devdoc,
          userdoc := contract.userdoc }

/-- `shimOutput` (src/unnamed/part_000:2-12, identical in legacy/shims.js):
`list.map(this.shimContract)` passes the function to `Array.prototype.map`
detached from the module, so each call runs with the global object as
`this` and `this.shimBytecode` undefined — the first artifact throws a
TypeError, so every non-empty list fails; the empty list yields the empty
map. The surviving shimmed artifacts would be keyed by `contract_name` via
`Object.assign` merge, with `sourceIndexes`/`compilerInfo` passed
through. -/
def shimOutput (contracts : List Contract) (sourceIndexes : List String)
    (compilerInfo : String) :
    Except JsError (List (String × LegacyContract) × List String × String) :=
  match contracts.mapM (shimContract none) with
  | Except.error e => Except.error e
  | Except.ok shimmed =>
      Except.ok
        ((shimmed.map (fun contract => [(contract.contract_name, contract)])).foldl jsAssign [],
         sourceIndexes, compilerInfo)

theorem slashify_slashify (c : Char) : slashify (slashify c) = slashify c := by
  by_cases h : c = '\\' <;> simp [slashify, h]

theorem slashify_ne_backslash (c : Char) : slashify c ≠ '\\' := by
  by_cases h : c = '\\' <;> simp [slashify, h]

theorem slashify_eq_colon_iff (c : Char) : slashify c = ':' ↔ c = ':' := by
  by_cases h : c = '\\' <;> simp [slashify, h]

theorem backslash_not_mem_map_slashify (p : List Char) : '\\' ∉ p.map slashify := by
  intro hmem
  obtain ⟨c, _, hc⟩ := List.mem_map.mp hmem
  exact slashify_ne_backslash c hc

theorem map_slashify_of_not_mem (l : List Char) (h : '\\' ∉ l) : l.map slashify = l := by
  induction l with
  | nil => rfl
  | cons c t ih =>
      have hc : c ≠ '\\' := fun hcb => h (hcb ▸ List.mem_cons_self c t)
      have ht := ih (fun hm => h (List.mem_cons_of_mem c hm))
      simp [slashify, hc, ht]

theorem removeFirstColon_not_mem : ∀ l : List Char, '\\' ∉ l → '\\' ∉ removeFirstColon l
  | [], h => by simp [removeFirstColon]
  | c :: t, h => by
      have hc : c ≠ '\\' := fun hcb => h (hcb ▸ List.mem_cons_self c t)
      have ht : '\\' ∉ t := fun hm => h (List.mem_cons_of_mem c hm)
      by_cases hcolon : c = ':'
      · simpa [removeFirstColon, hcolon] using ht
      · intro hm
        rw [removeFirstColon, if_neg hcolon] at hm
        rcases List.mem_cons.mp hm with h1 | h2
        · exact hc h1.symm
        · exact removeFirstColon_not_mem t ht h2

theorem gPSP_nil : getPortableSourcePath [] = [] := rfl

theorem gPSP_single (a : Char) : getPortableSourcePath [a] = [slashify a] := rfl

theorem gPSP_cons2 (a b : Char) (rest : List Char) :
    getPortableSourcePath (a :: b :: rest) =
      if slashify b = ':' then
        removeFirstColon ('/' :: slashify a :: slashify b :: rest.map slashify)
      else slashify a :: slashify b :: rest.map slashify := rfl

/-- Claim C6: path normalization replaces every backslash with a forward
slash and, when `:` stands at index 1 of the result, prepends `/` and removes
the first `:`; `C:\a\b.sol` becomes `/C/a/b.sol`, `/already/posix.sol` is
unchanged, and a string with no backslash and no `:` at index 1 passes
through unchanged. The function is total (never throws). -/
theorem getPortableSourcePath_spec :
    (∀ p : List Char, getPortableSourcePath p =
        (if (p.map slashify)[1]? = some ':'
          then removeFirstColon ('/' :: p.map slashify)
          else p.map slashify))
    ∧ (∀ p : List Char, '\\' ∉ getPortableSourcePath p)
    ∧ getPortableSourcePath "C:\\a\\b.sol".toList = "/C/a/b.sol".toList
    ∧ getPortableSourcePath "/already/posix.sol".toList = "/already/posix.sol".toList
    ∧ (∀ p : List Char, '\\' ∉ p → p[1]? ≠ some ':' →
        getPortableSourcePath p = p) := by
  refine ⟨?_, ?_, by decide, by decide, ?_⟩
  · intro p
    match p with
    | [] => simp [gPSP_nil]
    | [a] => simp [gPSP_single]
    | a :: b :: rest =>
        rw [gPSP_cons2]
        by_cases hb : slashify b = ':'
        · simp [hb]
        · simp [hb]
  · intro p
    match p with
    | [] => simp [gPSP_nil]
    | [a] =>
        rw [gPSP_single]
        intro hm
        rcases List.mem_singleton.mp hm with h
        exact slashify_ne_backslash a h.symm
    | a :: b :: rest =>
        rw [gPSP_cons2]
        by_cases hb : slashify b = ':'
        · rw [if_pos hb]
          apply removeFirstColon_not_mem
          intro hm
          rcases List.mem_cons.mp hm with h | hm2
          · exact absurd h (by decide)
          · exact backslash_not_mem_map_slashify (a :: b :: rest) hm2
        · rw [if_neg hb]
          intro hm
          exact backslash_not_mem_map_slashify (a :: b :: rest) hm
  · intro p hnb hcolon
    match p with
    | [] => rfl
    | [a] =>
        have ha : a ≠ '\\' := fun h => hnb (h ▸ List.mem_cons_self a [])
        rw [gPSP_single]
        simp [slashify, ha]
    | a :: b :: rest =>
        have ha : a ≠ '\\' := fun h => hnb (h ▸ List.mem_cons_self a (b :: rest))
        have hbne : b ≠ '\\' := fun h =>
          hnb (h ▸ List.mem_cons_of_mem a (List.mem_cons_self b rest))
        have hrest : '\\' ∉ rest := fun hm =>
          hnb (List.mem_cons_of_mem a (List.mem_cons_of_mem b hm))
        have hbcolon : b ≠ ':' := by
          intro h
          exact hcolon (by simp [h])
        have hsb : slashify b = ':' ↔ b = ':' := slashify_eq_colon_iff b
        rw [gPSP_cons2]
        rw [if_neg (fun h => hbcolon (hsb.mp h))]
        simp [slashify, ha, hbne, map_slashify_of_not_mem rest hrest]

/-- Witness for the hypothesis-bearing parts of `getPortableSourcePath_spec`:
the pass-through clause applied at the concrete input `"abc"`. -/
theorem getPortableSourcePath_spec_witness :
    getPortableSourcePath "abc".toList = "abc".toList :=
  getPortableSourcePath_spec.2.2.2.2 "abc".toList (by decide) (by decide)

/-- Claim C7 fails as stated: the path `"::\"` contains a backslash, yet
normalizing twice gives `"///"` while normalizing once gives `"/:/"`. -/
theorem normalize_idempotent_counterexample :
    '\\' ∈ "::\\".toList
    ∧ getPortableSourcePath (getPortableSourcePath "::\\".toList) ≠
        getPortableSourcePath "::\\".toList := by
  constructor
  · decide
  · decide

/-- Claim C7 (amended): for every path containing at least one backslash
that does not begin with two colons, `getPortableSourcePath` is idempotent.
(A path beginning `"::"` is renormalized a second time, as the
counterexample shows.) -/
theorem normalize_idempotent (p : List Char) (_hb : '\\' ∈ p)
    (hcc : ¬ (p[0]? = some ':' ∧ p[1]? = some ':')) :
    getPortableSourcePath (getPortableSourcePath p) = getPortableSourcePath p := by
  match p with
  | [] => rfl
  | [a] =>
      rw [gPSP_single, gPSP_single, slashify_slashify]
  | a :: b :: rest =>
      rw [gPSP_cons2]
      by_cases hbc : slashify b = ':'
      · have hb' : b = ':' := (slashify_eq_colon_iff b).mp hbc
        have ha' : a ≠ ':' := by
          intro h
          exact hcc ⟨by simp [h], by simp [hb']⟩
        have hsa : slashify a ≠ ':' := fun h => ha' ((slashify_eq_colon_iff a).mp h)
        rw [if_pos hbc]
        have hrfc : removeFirstColon ('/' :: slashify a :: slashify b :: rest.map slashify)
            = '/' :: slashify a :: rest.map slashify := by
          simp [removeFirstColon, hsa, hbc]
        rw [hrfc, gPSP_cons2]
        rw [if_neg (by rw [slashify_slashify]; exact hsa)]
        rw [slashify_slashify]
        rw [map_slashify_of_not_mem (rest.map slashify) (backslash_not_mem_map_slashify rest)]
        simp [slashify]
      · rw [if_neg hbc, gPSP_cons2]
        rw [if_neg (by rw [slashify_slashify]; exact hbc)]
        rw [slashify_slashify, slashify_slashify]
        rw [map_slashify_of_not_mem (rest.map slashify) (backslash_not_mem_map_slashify rest)]

/-- Witness for `normalize_idempotent`: the amended idempotence applied at
the concrete path `"a\b"`. -/
theorem normalize_idempotent_witness :
    getPortableSourcePath (getPortableSourcePath "a\\b".toList) =
      getPortableSourcePath "a\\b".toList :=
  normalize_idempotent "a\\b".toList (by decide) (by decide)

theorem jsAssign_map_const {α : Type} (t : String) (v : α) :
    ∀ (a : List (String × α)), (∀ kv ∈ a, kv.2 = v) →
      (a.map (fun kv =>
        match List.find? (fun kv2 => kv2.1 == kv.1) [(t, v)] with
        | some kv2 => (kv.1, kv2.2)
        | none => kv)) = a
  | [], _ => rfl
  | kv :: rest, h => by
      have hrest : ∀ kv2 ∈ rest, kv2.2 = v :=
        fun kv2 hm => h kv2 (List.mem_cons_of_mem kv hm)
      have hhead : (match List.find? (fun kv2 => kv2.1 == kv.1) [(t, v)] with
          | some kv2 => (kv.1, kv2.2)
          | none => kv) = kv := by
        obtain ⟨k1, k2⟩ := kv
        have hv : k2 = v := h (k1, k2) (List.mem_cons_self _ _)
        by_cases ht : (t == k1) = true
        · simp [List.find?, ht, hv]
        · have ht' : (t == k1) = false := by simpa using ht
          simp [List.find?, ht']
      rw [List.map_cons, hhead, jsAssign_map_const t v rest hrest]

theorem jsAssign_single_const {α : Type} (a : List (String × α)) (t : String) (v : α)
    (h : ∀ kv ∈ a, kv.2 = v) :
    jsAssign a [(t, v)] = if a.any (fun kv => kv.1 == t) then a else a ++ [(t, v)] := by
  unfold jsAssign
  rw [jsAssign_map_const t v a h]
  by_cases hany : a.any (fun kv => kv.1 == t)
  · simp [hany, List.filter]
  · simp [hany, List.filter]

theorem jsLookup_const {α : Type} (v : α) :
    ∀ (a : List (String × α)), (∀ kv ∈ a, kv.2 = v) → ∀ k,
      jsLookup a k = if a.any (fun kv => kv.1 == k) then some v else none
  | [], _, k => rfl
  | kv :: rest, h, k => by
      have hrest : ∀ kv2 ∈ rest, kv2.2 = v :=
        fun kv2 hm => h kv2 (List.mem_cons_of_mem kv hm)
      have hr := jsLookup_const v rest hrest k
      by_cases hk : (kv.1 == k) = true
      · simp [jsLookup, List.find?, hk, h kv (List.mem_cons_self kv rest)]
      · have hk' : (kv.1 == k) = false := by simpa using hk
        simp only [jsLookup, List.find?, hk', List.any_cons, Bool.false_or] at *
        exact hr

theorem foldl_assign_const {α : Type} (v : α) :
    ∀ (ts : List String) (acc : List (String × α)), (∀ kv ∈ acc, kv.2 = v) →
      (∀ kv ∈ (ts.map (fun t => [(t, v)])).foldl jsAssign acc, kv.2 = v)
      ∧ ∀ k, ((ts.map (fun t => [(t, v)])).foldl jsAssign acc).any (fun kv => kv.1 == k)
          = (acc.any (fun kv => kv.1 == k) || ts.any (fun t => t == k))
  | [], acc, hacc => by
      refine ⟨fun kv hm => hacc kv hm, fun k => by simp⟩
  | t :: ts, acc, hacc => by
      have hassign := jsAssign_single_const acc t v hacc
      have hacc' : ∀ kv ∈ jsAssign acc [(t, v)], kv.2 = v := by
        rw [hassign]
        by_cases hany : acc.any (fun kv => kv.1 == t)
        · rw [if_pos hany]
          exact hacc
        · rw [if_neg hany]
          intro kv hm
          rcases List.mem_append.mp hm with hm1 | hm2
          · exact hacc kv hm1
          · rw [List.mem_singleton.mp hm2]
      have ih := foldl_assign_const v ts (jsAssign acc [(t, v)]) hacc'
      have hkeys : ∀ k, (jsAssign acc [(t, v)]).any (fun kv => kv.1 == k)
          = (acc.any (fun kv => kv.1 == k) || (t == k)) := by
        intro k
        rw [hassign]
        by_cases hany : acc.any (fun kv => kv.1 == t)
        · rw [if_pos hany]
          by_cases htk : (t == k) = true
          · have : t = k := by simpa using htk
            subst this
            simp [hany]
          · simp [htk]
        · rw [if_neg hany]
          simp
      constructor
      · intro kv hm
        exact ih.1 kv (by simpa using hm)
      · intro k
        have h2 := ih.2 k
        calc ((( t :: ts).map (fun t => [(t, v)])).foldl jsAssign acc).any (fun kv => kv.1 == k)
            = ((ts.map (fun t => [(t, v)])).foldl jsAssign (jsAssign acc [(t, v)])).any
                (fun kv => kv.1 == k) := by simp
          _ = ((jsAssign acc [(t, v)]).any (fun kv => kv.1 == k) || ts.any (fun t => t == k)) := h2
          _ = ((acc.any (fun kv => kv.1 == k) || (t == k)) || ts.any (fun t => t == k)) := by
                rw [hkeys]
          _ = (acc.any (fun kv => kv.1 == k) || (t :: ts).any (fun t => t == k)) := by
                simp [Bool.or_assoc]

/-- Claim C3 fails as stated: with the non-empty target list `["/a.sol"]`,
the request's `outputSelection` has no entry at all — neither a direct key
nor a `"*"` wildcard — for a non-target file such as `"/b.sol"`, so AST
output is not requested for every source file; only the target gets the
selector set. -/
theorem prepareOutputSelection_counterexample :
    jsLookup (prepareOutputSelection ["/a.sol"]) "/b.sol" = none
    ∧ jsLookup (prepareOutputSelection ["/a.sol"]) "*" = none
    ∧ jsLookup (prepareOutputSelection ["/a.sol"]) "/a.sol" = some defaultSelectors := by
  refine ⟨?_, ?_, ?_⟩ <;> decide

/-- Claim C3 (amended): with a non-empty target list, `outputSelection` maps
each target path — and only target paths — to the fixed selector set (AST
plus bytecode/ABI/doc selectors); files outside the target list get no
entry. With no targets, the full fixed selector set is requested under the
key `"*"`. -/
theorem prepareOutputSelection_spec :
    (∀ targets : List String, targets ≠ [] → ∀ k,
        jsLookup (prepareOutputSelection targets) k
          = if k ∈ targets then some defaultSelectors else none)
    ∧ prepareOutputSelection [] = [("*", defaultSelectors)]
    ∧ jsLookup defaultSelectors "" = some ["legacyAST", "ast"]
    ∧ jsLookup defaultSelectors "*" = some ["abi", "metadata",
        "evm.bytecode.object", "evm.bytecode.sourceMap",
        "evm.deployedBytecode.object", "evm.deployedBytecode.sourceMap",
        "userdoc", "devdoc"] := by
  refine ⟨?_, by decide, by decide, by decide⟩
  intro targets hne k
  have hlen : ¬ targets.length = 0 := by
    intro h
    exact hne (List.length_eq_zero.mp h)
  rw [prepareOutputSelection, if_neg hlen]
  have hconst := foldl_assign_const defaultSelectors targets [] (by intro kv hm; cases hm)
  rw [jsLookup_const defaultSelectors _ hconst.1 k, hconst.2 k]
  by_cases hmem : k ∈ targets
  · rw [if_pos hmem]
    have : targets.any (fun t => t == k) = true :=
      List.any_eq_true.mpr ⟨k, hmem, by simp⟩
    simp [this]
  · rw [if_neg hmem]
    have : targets.any (fun t => t == k) = false := by
      by_contra h
      have := List.any_eq_true.mp (Bool.of_not_eq_false h)
      obtain ⟨t, htmem, htk⟩ := this
      exact hmem ((by simpa using htk : t = k) ▸ htmem)
    simp [this]

/-- Witness for `prepareOutputSelection_spec`: the targeted clause applied
at the concrete target list `["/a.sol"]` and file `"/c.sol"`. -/
theorem prepareOutputSelection_spec_witness :
    jsLookup (prepareOutputSelection ["/a.sol"]) "/c.sol" = none := by
  have h := prepareOutputSelection_spec.1 ["/a.sol"] (by decide) "/c.sol"
  rw [if_neg (by decide)] at h
  exact h

instance {ε α : Type} [DecidableEq ε] [DecidableEq α] : DecidableEq (Except ε α) :=
  fun a b =>
    match a, b with
    | Except.error e1, Except.error e2 =>
        if h : e1 = e2 then isTrue (by rw [h])
        else isFalse (fun hh => h (Except.error.inj hh))
    | Except.ok v1, Except.ok v2 =>
        if h : v1 = v2 then isTrue (by rw [h])
        else isFalse (fun hh => h (Except.ok.inj hh))
    | Except.error _, Except.ok _ => isFalse (fun hh => Except.noConfusion hh)
    | Except.ok _, Except.error _ => isFalse (fun hh => Except.noConfusion hh)

theorem mkLinkId_length (name : String) (h : name.length ≤ 38) :
    (mkLinkId name).length = 40 := by
  have hlen : name.toList.length = name.length := rfl
  unfold mkLinkId
  simp only [List.length_append, List.length_cons, List.length_replicate, hlen]
  omega

theorem spliceStep_length (bc : List Char) (refStart : Nat) (name : String)
    (hn : name.length ≤ 38) (hoff : refStart * 2 + 40 ≤ bc.length) :
    (bc.take (refStart * 2) ++ mkLinkId name ++ bc.drop (refStart * 2 + 40)).length
      = bc.length := by
  simp only [List.length_append, List.length_take, List.length_drop,
    mkLinkId_length name hn]
  omega

theorem replaceLinkReferences_length (name : String) (hn : name.length ≤ 38) :
    ∀ (refs : List Nat) (bc : List Char), (∀ r ∈ refs, r * 2 + 40 ≤ bc.length) →
      (replaceLinkReferences bc refs name).length = bc.length
  | [], _, _ => rfl
  | r :: rs, bc, h => by
      have hstep : (bc.take (r * 2) ++ mkLinkId name ++ bc.drop (r * 2 + 40)).length
          = bc.length :=
        spliceStep_length bc r name hn (h r (List.mem_cons_self r rs))
      have hrs : ∀ x ∈ rs, x * 2 + 40 ≤
          (bc.take (r * 2) ++ mkLinkId name ++ bc.drop (r * 2 + 40)).length := by
        intro x hx
        rw [hstep]
        exact h x (List.mem_cons_of_mem r hx)
      have hrec := replaceLinkReferences_length name hn rs
        (bc.take (r * 2) ++ mkLinkId name ++ bc.drop (r * 2 + 40)) hrs
      calc (replaceLinkReferences bc (r :: rs) name).length
          = (replaceLinkReferences
              (bc.take (r * 2) ++ mkLinkId name ++ bc.drop (r * 2 + 40)) rs name).length := by
            rw [replaceLinkReferences, List.foldl_cons]
            rfl
        _ = bc.length := hrec.trans hstep

theorem foldl_replace_length :
    ∀ (libs : List (String × List Nat)) (bc : List Char),
      (∀ p ∈ libs, p.1.length ≤ 38 ∧ ∀ r ∈ p.2, r * 2 + 40 ≤ bc.length) →
      (libs.foldl (fun bc p => replaceLinkReferences bc p.2 p.1) bc).length = bc.length
  | [], _, _ => rfl
  | p :: ps, bc, h => by
      obtain ⟨hn, hoff⟩ := h p (List.mem_cons_self p ps)
      have hstep : (replaceLinkReferences bc p.2 p.1).length = bc.length :=
        replaceLinkReferences_length p.1 hn p.2 bc hoff
      have hps : ∀ q ∈ ps, q.1.length ≤ 38 ∧
          ∀ r ∈ q.2, r * 2 + 40 ≤ (replaceLinkReferences bc p.2 p.1).length := by
        intro q hq
        obtain ⟨h1, h2⟩ := h q (List.mem_cons_of_mem p hq)
        exact ⟨h1, fun r hr => hstep ▸ h2 r hr⟩
      have hrec := foldl_replace_length ps (replaceLinkReferences bc p.2 p.1) hps
      rw [List.foldl_cons]
      exact hrec.trans hstep

theorem foldl_append_eq_flatten {α : Type} :
    ∀ (L : List (List α)) (init : List α),
      L.foldl (fun a b => a ++ b) init = init ++ L.flatten
  | [], init => by simp
  | l :: L, init => by
      rw [List.foldl_cons, foldl_append_eq_flatten L (init ++ l)]
      simp

theorem mem_flattenLinkRefs (lrs : List (String × List (String × List Nat)))
    (p : String × List Nat) :
    p ∈ flattenLinkRefs lrs ↔ ∃ fl ∈ lrs, p ∈ fl.2 := by
  unfold flattenLinkRefs
  rw [foldl_append_eq_flatten]
  simp only [List.nil_append, List.mem_flatten, List.mem_map]
  constructor
  · rintro ⟨l, ⟨fl, hfl, rfl⟩, hp⟩
    exact ⟨fl, hfl, hp⟩
  · rintro ⟨fl, hfl, hp⟩
    exact ⟨fl.2, ⟨fl, hfl, rfl⟩, hp⟩

/-- Claim C1 fails as stated: with the empty bytecode string and a single
reference to library `"A"` at offset 0, JS `substring` clamps the
out-of-range indices, so resolution returns `0x` followed by a 40-character
placeholder — the post-prefix length is 40, not the input length 0. -/
theorem link_length_counterexample :
    (replaceAllLinkReferences [] (some [("f.sol", [("A", [0])])])).map
        (fun out => (out.drop 2).length) = Except.ok 40
    ∧ (40 : Nat) ≠ ([] : List Char).length := by
  refine ⟨?_, ?_⟩ <;> decide

/-- Claim C1 (amended): whenever every referenced library name is at most 38
characters and every byte offset is in range (`offset*2 + 40 ≤ length`),
link-reference resolution — used identically for creation and deployed
bytecode — succeeds, its result starts with `0x`, and the length after the
prefix equals the pre-resolution length, for any number of references in any
order. As stated the claim fails for an out-of-range offset (or an
over-long name), see the counterexample. -/
theorem replaceAllLinkReferences_length (bc : List Char)
    (lrs : List (String × List (String × List Nat)))
    (h : ∀ fl ∈ lrs, ∀ p ∈ fl.2, p.1.length ≤ 38 ∧ ∀ r ∈ p.2, r * 2 + 40 ≤ bc.length) :
    ∃ out, replaceAllLinkReferences bc (some lrs) = Except.ok out
      ∧ out.take 2 = "0x".toList
      ∧ (out.drop 2).length = bc.length := by
  refine ⟨_, rfl, rfl, ?_⟩
  show ((flattenLinkRefs lrs).foldl
      (fun bc p => replaceLinkReferences bc p.2 p.1) bc).length = bc.length
  apply foldl_replace_length
  intro p hp
  obtain ⟨fl, hfl, hpfl⟩ := (mem_flattenLinkRefs lrs p).mp hp
  exact h fl hfl p hpfl

/-- Witness for `replaceAllLinkReferences_length`: the amended claim applied
to 100 `'0'` characters and one in-range reference to `MathLib`. -/
theorem replaceAllLinkReferences_length_witness :
    ∃ out, replaceAllLinkReferences (List.replicate 100 '0')
        (some [("/f.sol", [("MathLib", [10])])]) = Except.ok out
      ∧ out.take 2 = "0x".toList
      ∧ (out.drop 2).length = 100 := by
  have h := replaceAllLinkReferences_length (List.replicate 100 '0')
    [("/f.sol", [("MathLib", [10])])] (by decide)
  simpa using h

/-- Claim C8 fails as stated for an absent reference set: `Object.values`
of `undefined` throws a TypeError instead of returning the `0x`-prefixed
input unchanged. -/
theorem replaceAll_absent_counterexample :
    replaceAllLinkReferences "abcd".toList none = Except.error JsError.typeError
    ∧ Except.error JsError.typeError ≠ Except.ok ("0xabcd".toList) := by
  exact ⟨rfl, by decide⟩

/-- Claim C8 (amended): when a link-reference set is present but empty —
it contains no library entries after flattening, e.g. the empty map —
resolution is a no-op apart from prepending `0x`, and does not fail. An
absent (`undefined`) reference set instead throws (see counterexample). -/
theorem replaceAll_empty_refs (bc : List Char)
    (lrs : List (String × List (String × List Nat)))
    (h : flattenLinkRefs lrs = []) :
    replaceAllLinkReferences bc (some lrs) = Except.ok ('0' :: 'x' :: bc) := by
  show Except.ok ('0' :: 'x' ::
      ((flattenLinkRefs lrs).foldl (fun bc p => replaceLinkReferences bc p.2 p.1) bc))
    = Except.ok ('0' :: 'x' :: bc)
  rw [h]
  rfl

/-- Witness for `replaceAll_empty_refs`: the empty reference map on the
bytecode `"abcd"`. -/
theorem replaceAll_empty_refs_witness :
    replaceAllLinkReferences "abcd".toList (some []) = Except.ok ("0xabcd".toList) := by
  have h2 : ('0' :: 'x' :: "abcd".toList) = "0xabcd".toList := by decide
  rw [← h2]
  exact replaceAll_empty_refs "abcd".toList [] rfl

/-- Claim C2 fails as stated: a 39-character library name is not truncated —
the placeholder token is 41 characters, not exactly 40, and splicing it
grows a 100-character bytecode to 101 characters instead of replacing
exactly 40 characters in place. -/
theorem splice_token_counterexample :
    (mkLinkId (String.mk (List.replicate 39 'A'))).length = 41
    ∧ (replaceLinkReferences (List.replicate 100 '0') [0]
        (String.mk (List.replicate 39 'A'))).length = 101
    ∧ (41 : Nat) ≠ 40 ∧ (101 : Nat) ≠ 100 := by
  refine ⟨by decide, by decide, by decide, by decide⟩

/-- Claim C2 (amended): for a flattened reference `(libraryName, offset)`
whose name is at most 38 characters (so that padding alone reaches width 40 —
the code pads but never truncates) and whose offset is in range
(`offset*2 + 40 ≤ length`), resolution splices the 40-character token
`"__" ++ name ++ trailing underscores` at character position `offset*2`,
replacing exactly 40 characters and leaving every other character
unchanged. -/
theorem replaceLinkReferences_splice (bc : List Char) (offset : Nat) (name : String)
    (hn : name.length ≤ 38) (hoff : offset * 2 + 40 ≤ bc.length) :
    replaceLinkReferences bc [offset] name
        = bc.take (offset * 2) ++ mkLinkId name ++ bc.drop (offset * 2 + 40)
    ∧ mkLinkId name = '_' :: '_' :: (name.toList ++ List.replicate (38 - name.length) '_')
    ∧ (mkLinkId name).length = 40
    ∧ (replaceLinkReferences bc [offset] name).length = bc.length
    ∧ (∀ i, i < offset * 2 →
        (replaceLinkReferences bc [offset] name)[i]? = bc[i]?)
    ∧ (∀ j, j < 40 →
        (replaceLinkReferences bc [offset] name)[offset * 2 + j]? = (mkLinkId name)[j]?)
    ∧ (∀ i, offset * 2 + 40 ≤ i →
        (replaceLinkReferences bc [offset] name)[i]? = bc[i]?) := by
  have hsplice : replaceLinkReferences bc [offset] name
      = bc.take (offset * 2) ++ mkLinkId name ++ bc.drop (offset * 2 + 40) := rfl
  have hname : name.toList.length = name.length := rfl
  have htok : mkLinkId name
      = '_' :: '_' :: (name.toList ++ List.replicate (38 - name.length) '_') := by
    show ('_' :: '_' :: name.toList)
        ++ List.replicate (40 - ('_' :: '_' :: name.toList).length) '_'
      = '_' :: '_' :: (name.toList ++ List.replicate (38 - name.length) '_')
    have h38 : 40 - ('_' :: '_' :: name.toList).length = 38 - name.length := by
      simp only [List.length_cons, hname]
      omega
    rw [h38]
    simp
  have htoklen := mkLinkId_length name hn
  have htake : (bc.take (offset * 2)).length = offset * 2 := by
    rw [List.length_take]
    omega
  have hlm : (bc.take (offset * 2) ++ mkLinkId name).length = offset * 2 + 40 := by
    rw [List.length_append, htake, htoklen]
  refine ⟨hsplice, htok, htoklen, ?_, ?_, ?_, ?_⟩
  · exact replaceLinkReferences_length name hn [offset] bc
      (by intro r hr; rw [List.mem_singleton.mp hr]; exact hoff)
  · intro i hi
    rw [hsplice]
    rw [List.getElem?_append_left (by rw [hlm]; omega)]
    rw [List.getElem?_append_left (by rw [htake]; omega)]
    exact List.getElem?_take_of_lt hi
  · intro j hj
    rw [hsplice]
    rw [List.getElem?_append_left (by rw [hlm]; omega)]
    rw [List.getElem?_append_right (by rw [htake]; omega)]
    rw [htake]
    congr 1
    omega
  · intro i hi
    rw [hsplice]
    rw [List.getElem?_append_right (by rw [hlm]; omega)]
    rw [hlm, List.getElem?_drop]
    congr 1
    omega

/-- Witness for `replaceLinkReferences_splice`: the claim's concrete
example — bytecode `"00"` repeated 50 times (100 characters) with the
reference `{name:"MathLib", offset:10, length:20}` — the 40-character token
`"__MathLib"` plus 31 underscores sits at character offset 20 and the rest
is unchanged. -/
theorem replaceLinkReferences_splice_witness :
    replaceLinkReferences (List.replicate 100 '0') [10] "MathLib"
      = List.replicate 20 '0' ++ mkLinkId "MathLib" ++ List.replicate 40 '0'
    ∧ mkLinkId "MathLib" = "__MathLib".toList ++ List.replicate 31 '_' := by
  have h := replaceLinkReferences_splice (List.replicate 100 '0') 10 "MathLib"
    (by decide) (by decide)
  constructor
  · rw [h.1]
    decide
  · rw [h.2.1]
    decide

theorem detectErrors_some (diags : List Diagnostic) (strict : Bool)
    (cfg : Option String) :
    detectErrors (some diags) strict cfg =
      (if containsSub "requires different compiler version" (joinedErrors diags strict) then
        match pragmaMatch (joinedErrors diags strict).toList with
        | none => Except.error JsError.typeError
        | some contractSolcVer =>
            match cfg with
            | none => Except.error JsError.referenceError
            | some configSolcVer =>
                Except.ok ⟨joinedWarnings diags strict,
                  joinedErrors diags strict
                    ++ versionHint configSolcVer (String.mk contractSolcVer)⟩
      else Except.ok ⟨joinedWarnings diags strict, joinedErrors diags strict⟩) := rfl

/-- Claim C5 fails as stated: the list containing the single diagnostic
`{severity:"warning", formattedMessage:""}` consists only of warnings, yet
with strict=true the joined message string is empty, the `errors.length > 0`
gate does not fire, and the run succeeds instead of throwing a
CompileError. -/
theorem strict_warnings_counterexample :
    (∀ d ∈ [Diagnostic.mk "warning" ""], d.severity = "warning")
    ∧ runGate (some [Diagnostic.mk "warning" ""]) true none = Except.ok "" := by
  refine ⟨by decide, by decide⟩

/-- Claim C5 (amended): for a diagnostic list in which every severity is
`"warning"`: with strict=false the run always succeeds, reporting the joined
warning messages with an empty error string (zero errors); with strict=true
the run throws a CompileError carrying the joined formatted messages,
provided that joined string is non-empty (a list of empty messages joins to
`""` and slips through the `errors.length > 0` gate, see the
counterexample) and does not contain `"requires different compiler
version"` (which would divert into the enrichment branch). -/
theorem strict_warnings_spec (diags : List Diagnostic) (cfg : Option String)
    (hw : ∀ d ∈ diags, d.severity = "warning") :
    (detectErrors (some diags) false cfg
        = Except.ok ⟨joinedWarnings diags false, ""⟩
      ∧ runGate (some diags) false cfg = Except.ok (joinedWarnings diags false))
    ∧ (joinedErrors diags true ≠ "" →
        containsSub "requires different compiler version" (joinedErrors diags true) = false →
        runGate (some diags) true cfg
          = Except.error (RunError.compileError (joinedErrors diags true))) := by
  have herr : joinedErrors diags false = "" := by
    have hraw : rawErrorsOf diags false = [] := by
      rw [rawErrorsOf]
      simp only [if_neg (by simp : ¬ (false : Bool) = true)]
      rw [List.filter_eq_nil_iff]
      intro d hd
      simp [hw d hd]
    rw [joinedErrors, hraw]
    rfl
  have hns : containsSub "requires different compiler version" "" = false := by decide
  have hde : detectErrors (some diags) false cfg
      = Except.ok ⟨joinedWarnings diags false, ""⟩ := by
    rw [detectErrors_some, herr, hns]
    simp
  refine ⟨⟨hde, ?_⟩, ?_⟩
  · rw [runGate, hde]
    simp
  · intro hne hnc
    have hde2 : detectErrors (some diags) true cfg
        = Except.ok ⟨joinedWarnings diags true, joinedErrors diags true⟩ := by
      rw [detectErrors_some, hnc]
      simp
    have hlen : (joinedErrors diags true).length > 0 := by
      by_contra hle
      apply hne
      apply String.ext
      have h0 : (joinedErrors diags true).data.length = 0 := by
        have : (joinedErrors diags true).length = (joinedErrors diags true).data.length := rfl
        omega
      exact List.length_eq_zero.mp h0
    rw [runGate, hde2]
    simp [hlen]

/-- Witness for `strict_warnings_spec`: a single warning with message
`"w"` — strict=false succeeds with the warning reported, strict=true throws
`CompileError("w")`. -/
theorem strict_warnings_spec_witness :
    runGate (some [Diagnostic.mk "warning" "w"]) false none = Except.ok "w"
    ∧ runGate (some [Diagnostic.mk "warning" "w"]) true none
        = Except.error (RunError.compileError "w") := by
  have h := strict_warnings_spec [Diagnostic.mk "warning" "w"] none (by decide)
  refine ⟨?_, ?_⟩
  · have h1 := h.1.2
    rwa [(by decide : joinedWarnings [Diagnostic.mk "warning" "w"] false = "w")] at h1
  · have h2 := h.2 (by decide) (by decide)
    rwa [(by decide : joinedErrors [Diagnostic.mk "warning" "w"] true = "w")] at h2

/-- Claim C10: `detectErrors` can throw instead of returning a
`{warnings, errors}` pair. When the joined error messages contain
`"requires different compiler version"` but no substring matching
`/pragma solidity[^;]*/` (the literal `"pragma solidity"` never occurs, so
the regex match is `null`), indexing `[0]` throws a TypeError. When the
pragma pattern does match but `options.compilers.solc.version` is falsy,
the code evaluates the undeclared identifier `solc` (local only to
`invokeCompiler`) and throws a ReferenceError. -/
theorem detectErrors_crash (diags : List Diagnostic) (strict : Bool)
    (cfg : Option String) :
    (containsSub "requires different compiler version" (joinedErrors diags strict) = true →
      pragmaMatch (joinedErrors diags strict).toList = none →
      detectErrors (some diags) strict cfg = Except.error JsError.typeError)
    ∧ (∀ m : List Char,
        containsSub "requires different compiler version" (joinedErrors diags strict) = true →
        pragmaMatch (joinedErrors diags strict).toList = some m →
        detectErrors (some diags) strict none = Except.error JsError.referenceError) := by
  constructor
  · intro h1 h2
    rw [detectErrors_some, h1, h2]
    simp
  · intro m h1 h2
    rw [detectErrors_some, h1, h2]
    simp

/-- Witness for `detectErrors_crash`: a single error diagnostic whose
message is exactly `"requires different compiler version"` (no pragma text)
makes `detectErrors` throw the TypeError. -/
theorem detectErrors_crash_witness :
    detectErrors
        (some [Diagnostic.mk "error" "requires different compiler version"]) true none
      = Except.error JsError.typeError :=
  (detectErrors_crash [Diagnostic.mk "error" "requires different compiler version"]
    true none).1 (by decide) (by decide)

/-- The concrete artifact of claim C9: contractName `"Foo"`, already-resolved
bytecode `"0xdead"`; the remaining fields are irrelevant to the claim. -/
def fooArtifact : Contract :=
  { contractName := "Foo", sourcePath := "", source := "", sourceMap := "",
    deployedSourceMap := "", legacyAST := "", ast := "", abi := "",
    metadata := "", bytecode := "0xdead", deployedBytecode := "0x",
    compiler := "", devdoc := "", userdoc := "" }

/-- Claim C9 describes the shim's intended behaviour, but the code crashes
on its scenario: `shimOutput` passes `this.shimContract` to
`Array.prototype.map` detached from the module, so inside `shimContract`
the call `this.shimBytecode(bytecode)` invokes `undefined` and throws a
TypeError on the very first artifact — applied to a list containing the
`"Foo"` artifact, the legacy map is never produced. Called with the module
as receiver (the evident intent, matching the spec's §4.8/§8 scenario),
`shimContract` with the identity `shimBytecode` yields exactly the claimed
legacy artifact: `contract_name "Foo"`, `bytecode "0xdead"`,
`unlinked_binary "0xdead"`. -/
theorem shimOutput_foo_crash :
    shimOutput [fooArtifact] [] "" = Except.error JsError.typeError
    ∧ (shimContract (some shimBytecode) fooArtifact).map
        (fun c => (c.contract_name, c.bytecode, c.unlinked_binary))
        = Except.ok ("Foo", "0xdead", "0xdead")
    ∧ shimBytecode "0xdead" = "0xdead" := by
  refine ⟨by decide, by decide, rfl⟩

theorem orderedInsert_congr {α : Type} {r s : α → α → Prop}
    [DecidableRel r] [DecidableRel s] (x : α) :
    ∀ l : List α, (∀ b ∈ l, (r x b ↔ s x b)) →
      l.orderedInsert r x = l.orderedInsert s x
  | [], _ => rfl
  | y :: ys, h => by
      rw [List.orderedInsert, List.orderedInsert]
      by_cases hr : r x y
      · rw [if_pos hr, if_pos ((h y (List.mem_cons_self y ys)).mp hr)]
      · rw [if_neg hr,
          if_neg (fun hs => hr ((h y (List.mem_cons_self y ys)).mpr hs)),
          orderedInsert_congr x ys (fun b hb => h b (List.mem_cons_of_mem y hb))]

theorem insertionSort_congr {α : Type} {r s : α → α → Prop}
    [DecidableRel r] [DecidableRel s] :
    ∀ l : List α, (∀ a ∈ l, ∀ b ∈ l, (r a b ↔ s a b)) →
      l.insertionSort r = l.insertionSort s
  | [], _ => rfl
  | x :: xs, h => by
      rw [List.insertionSort, List.insertionSort]
      rw [insertionSort_congr xs (fun a ha b hb =>
        h a (List.mem_cons_of_mem x ha) b (List.mem_cons_of_mem x hb))]
      exact orderedInsert_congr x (xs.insertionSort s) (fun b hb =>
        h x (List.mem_cons_self x xs) b
          (List.mem_cons_of_mem x ((List.mem_insertionSort _).mp hb)))

/-- The child list, AST, ABI and index map of claim C4's counterexample:
contract `C` declares only the function `f`, and the ABI holds an `f` entry
followed by an entry named `toString` (e.g. a public function inherited
from a base contract, so absent from this contract's nodes). -/
def protoChildren : List InnerNode := [InnerNode.mk "FunctionDefinition" "f"]

def protoAst : Ast :=
  Ast.mk [TopNode.mk "ContractDefinition" "C" (some protoChildren)]

def protoAbi : List AbiEntry :=
  [AbiEntry.mk "function" (some "f"), AbiEntry.mk "function" (some "toString")]

def protoFidx : List (String × Nat) :=
  buildFunctionIndexes (functionNamesOf protoChildren)

/-- Claim C4 fails as stated: membership is not decided solely by presence
in the name→index map. The name `toString` is absent from the map, yet the
bare read `functionIndexes["toString"]` finds the inherited
`Object.prototype.toString`, so the program buckets the entry as matching
(NaN comparator, treated as `+0`, keeps the stable order) and returns
`[f, toString]` — while the claim's decomposition (non-members first, then
members sorted by index) demands `[toString, f]`. -/
theorem orderABI_proto_counterexample :
    orderABI protoAbi "C" protoAst = protoAbi
    ∧ ownFunctionIndex protoFidx (some "toString") = none
    ∧ functionIndexRead protoFidx (some "toString") = some JsIndexValue.protoMember
    ∧ (protoAbi.filter (fun e => (ownFunctionIndex protoFidx e.name).isNone)
        ++ (protoAbi.filter (fun e => (ownFunctionIndex protoFidx e.name).isSome)).insertionSort
            (fun a b => abiSortKey protoFidx a ≤ abiSortKey protoFidx b))
        = [AbiEntry.mk "function" (some "toString"), AbiEntry.mk "function" (some "f")]
    ∧ protoAbi
        ≠ [AbiEntry.mk "function" (some "toString"), AbiEntry.mk "function" (some "f")] := by
  refine ⟨by decide, by decide, by decide, by decide, by decide⟩

/-- Claim C4 (amended): `orderABI` returns the ABI unchanged when no
`ContractDefinition` node matches the contract name or the matching node has
no child-node list. Otherwise membership is decided by the JS property read
`functionIndexes[name]`, which also finds inherited `Object.prototype`
members (`toString`, `hasOwnProperty`, `constructor`, `valueOf`,
`__proto__`, …) — see the counterexample. For an ABI none of whose entry
property keys (an absent name reads as the key `"undefined"`) is an
`Object.prototype` member name, the read coincides with presence in the
name→index map itself, and the result is exactly: the entries whose key is
absent from the map, in their original relative order, followed by the
entries whose key is present, stably sorted ascending by the named
function's declaration index — never consulting the entry's `type`
field. -/
theorem orderABI_spec (abi : List AbiEntry) (contractName : String) (ast : Ast) :
    ((findContractDefinition ast contractName).bind TopNode.nodes = none →
      orderABI abi contractName ast = abi)
    ∧ (∀ (cd : TopNode) (children : List InnerNode) (fidx : List (String × Nat)),
        findContractDefinition ast contractName = some cd →
        cd.nodes = some children →
        fidx = buildFunctionIndexes (functionNamesOf children) →
        (∀ e ∈ abi, objectProtoNames.contains (e.name.getD "undefined") = false) →
        (∀ e ∈ abi, functionIndexRead fidx e.name
            = (ownFunctionIndex fidx e.name).map JsIndexValue.num)
        ∧ orderABI abi contractName ast
            = abi.filter (fun e => (ownFunctionIndex fidx e.name).isNone)
              ++ (abi.filter (fun e => (ownFunctionIndex fidx e.name).isSome)).insertionSort
                  (fun a b => abiSortKey fidx a ≤ abiSortKey fidx b)
        ∧ List.Pairwise (fun a b => abiSortKey fidx a ≤ abiSortKey fidx b)
            ((abi.filter (fun e => (ownFunctionIndex fidx e.name).isSome)).insertionSort
              (fun a b => abiSortKey fidx a ≤ abiSortKey fidx b))
        ∧ ((abi.filter (fun e => (ownFunctionIndex fidx e.name).isSome)).insertionSort
            (fun a b => abiSortKey fidx a ≤ abiSortKey fidx b)).Perm
            (abi.filter (fun e => (ownFunctionIndex fidx e.name).isSome))
        ∧ (∀ (e : AbiEntry) (t : String),
            functionIndexRead fidx (AbiEntry.mk t e.name).name
              = functionIndexRead fidx e.name)) := by
  constructor
  · intro h
    cases hfc : findContractDefinition ast contractName with
    | none => rw [orderABI, hfc]
    | some cd =>
        rw [hfc] at h
        cases hns : cd.nodes with
        | none => simp only [orderABI, hfc, hns]
        | some children =>
            have h' : cd.nodes = none := h
            rw [hns] at h'
            exact absurd h' (by simp)
  · intro cd children fidx hfc hns hfidx hclean
    subst hfidx
    have hread : ∀ e ∈ abi,
        functionIndexRead (buildFunctionIndexes (functionNamesOf children)) e.name
          = (ownFunctionIndex (buildFunctionIndexes (functionNamesOf children)) e.name).map
              JsIndexValue.num := by
      intro e he
      have hnc := hclean e he
      have hnp : ¬ (e.name.getD "undefined" == "__proto__") = true := by
        intro hpp
        have hkey : e.name.getD "undefined" = "__proto__" := by simpa using hpp
        rw [hkey] at hnc
        exact absurd hnc (by decide)
      rw [functionIndexRead, if_neg hnp, ownFunctionIndex]
      cases hl : jsLookup (buildFunctionIndexes (functionNamesOf children))
          (e.name.getD "undefined") with
      | some i => rfl
      | none =>
          rw [hnc]
          simp
    have hfilN : abi.filter (fun e =>
          (functionIndexRead (buildFunctionIndexes (functionNamesOf children)) e.name).isNone)
        = abi.filter (fun e =>
          (ownFunctionIndex (buildFunctionIndexes (functionNamesOf children)) e.name).isNone) := by
      apply List.filter_congr
      intro e he
      rw [hread e he]
      cases ownFunctionIndex (buildFunctionIndexes (functionNamesOf children)) e.name <;> rfl
    have hfilS : abi.filter (fun e =>
          (functionIndexRead (buildFunctionIndexes (functionNamesOf children)) e.name).isSome)
        = abi.filter (fun e =>
          (ownFunctionIndex (buildFunctionIndexes (functionNamesOf children)) e.name).isSome) := by
      apply List.filter_congr
      intro e he
      rw [hread e he]
      cases ownFunctionIndex (buildFunctionIndexes (functionNamesOf children)) e.name <;> rfl
    have hsort : (abi.filter (fun e =>
          (ownFunctionIndex (buildFunctionIndexes (functionNamesOf children)) e.name).isSome)).insertionSort
          (fun a b => abiCompare (buildFunctionIndexes (functionNamesOf children)) a b ≤ 0)
        = (abi.filter (fun e =>
          (ownFunctionIndex (buildFunctionIndexes (functionNamesOf children)) e.name).isSome)).insertionSort
          (fun a b => abiSortKey (buildFunctionIndexes (functionNamesOf children)) a
            ≤ abiSortKey (buildFunctionIndexes (functionNamesOf children)) b) := by
      apply insertionSort_congr
      intro a ha b hb
      obtain ⟨haabi, hasome⟩ := List.mem_filter.mp ha
      obtain ⟨hbabi, hbsome⟩ := List.mem_filter.mp hb
      obtain ⟨ia, hia⟩ := Option.isSome_iff_exists.mp hasome
      obtain ⟨ib, hib⟩ := Option.isSome_iff_exists.mp hbsome
      have hfa : functionIndexRead (buildFunctionIndexes (functionNamesOf children)) a.name
          = some (JsIndexValue.num ia) := by
        rw [hread a haabi, hia]
        rfl
      have hfb : functionIndexRead (buildFunctionIndexes (functionNamesOf children)) b.name
          = some (JsIndexValue.num ib) := by
        rw [hread b hbabi, hib]
        rfl
      have hca : abiCompare (buildFunctionIndexes (functionNamesOf children)) a b
          = (ia : Int) - (ib : Int) := by
        rw [abiCompare, hfa, hfb]
      have hka : abiSortKey (buildFunctionIndexes (functionNamesOf children)) a = ia := by
        rw [abiSortKey, hia]
        rfl
      have hkb : abiSortKey (buildFunctionIndexes (functionNamesOf children)) b = ib := by
        rw [abiSortKey, hib]
        rfl
      rw [hca, hka, hkb]
      omega
    haveI htot : IsTotal AbiEntry
        (fun a b => abiSortKey (buildFunctionIndexes (functionNamesOf children)) a
          ≤ abiSortKey (buildFunctionIndexes (functionNamesOf children)) b) :=
      ⟨fun a b => Nat.le_total _ _⟩
    haveI htrans : IsTrans AbiEntry
        (fun a b => abiSortKey (buildFunctionIndexes (functionNamesOf children)) a
          ≤ abiSortKey (buildFunctionIndexes (functionNamesOf children)) b) :=
      ⟨fun _ _ _ hab hbc => Nat.le_trans hab hbc⟩
    refine ⟨hread, ?_, ?_, ?_, fun e t => rfl⟩
    · simp only [orderABI, hfc, hns]
      rw [hfilN, hfilS, hsort]
    · exact List.sorted_insertionSort _ _
    · exact List.perm_insertionSort _ _

/-- Witness for `orderABI_spec`: a contract `C` declaring functions `g` then
`f`, with ABI `[f, E, g]` whose names avoid the `Object.prototype` member
names: the non-function entry `E` keeps its place in front and the function
entries follow in declaration order `g`, `f`. -/
theorem orderABI_spec_witness :
    orderABI
      [AbiEntry.mk "function" (some "f"), AbiEntry.mk "event" (some "E"),
       AbiEntry.mk "function" (some "g")] "C"
      (Ast.mk [TopNode.mk "ContractDefinition" "C"
        (some [InnerNode.mk "FunctionDefinition" "g",
               InnerNode.mk "FunctionDefinition" "f"])])
      = [AbiEntry.mk "event" (some "E"), AbiEntry.mk "function" (some "g"),
         AbiEntry.mk "function" (some "f")] := by
  have h := (orderABI_spec
      [AbiEntry.mk "function" (some "f"), AbiEntry.mk "event" (some "E"),
       AbiEntry.mk "function" (some "g")] "C"
      (Ast.mk [TopNode.mk "ContractDefinition" "C"
        (some [InnerNode.mk "FunctionDefinition" "g",
               InnerNode.mk "FunctionDefinition" "f"])])).2
    (TopNode.mk "ContractDefinition" "C"
      (some [InnerNode.mk "FunctionDefinition" "g",
             InnerNode.mk "FunctionDefinition" "f"]))
    [InnerNode.mk "FunctionDefinition" "g", InnerNode.mk "FunctionDefinition" "f"]
    _ (by decide) rfl rfl (by decide)
  rw [h.2.1]
  decide

end Truffle
